import Mathlib

/-!
Verification of the project-management demo (TypeScript sources under `src/`).

The development shallowly embeds the program's data model and the operations
that the specification talks about:

* `ProjectStatus`, `Project` — the entity model (`src/app.ts`, `Project` class
  and `ProjectStatus` enum).
* `Validatable`, `validate` — the stateless rule checker (`src/app.ts`,
  function `validate`).
* `ProjectState` with `addListener`, `addProject`, `moveProject`,
  `updateListeners` — the observable state store
  (`src/state/project-state.ts`).
* `gatherUserInput`, `submitHandler` — the form gate (`src/app.ts`,
  class `ProjectInput`).

JavaScript arrays are reference values and `this.projects.slice()` hands each
subscriber a fresh shallow copy, so the store is modelled over an explicit
heap of arrays: `Heap` is a list of project arrays, a reference is an index
into it, `slice` is an allocation of a fresh reference holding the same
contents.  Listener callbacks are opaque to the store, so notification is
modelled as a trace: each store operation returns, besides the new heap, the
list of calls `(listener, snapshotRef)` it performed, in order.
-/

/-- The two-valued status enumeration (`enum ProjectStatus` in `src/app.ts`). -/
inductive ProjectStatus where
  | Active
  | Finished
deriving DecidableEq, Repr

/-- The `Project` record (`class Project` in `src/app.ts`): an identifier,
a title, a description, a people count and a status.  The people count is a
JavaScript number holding an integer; it is modelled as `Int`. -/
structure Project where
  id : String
  title : String
  description : String
  people : Int
  status : ProjectStatus
deriving DecidableEq, Repr

instance : Inhabited Project := ⟨⟨"", "", "", 0, ProjectStatus.Active⟩⟩

/-- A heap of JavaScript arrays of projects; an array reference is an index. -/
abbrev Heap := List (List Project)

/-- Dereference an array (reads of a dangling reference yield `[]`;
all verified states keep their references allocated). -/
def Heap.read (h : Heap) (r : Nat) : List Project :=
  h.getD r []

/-- In-place update of the array behind a reference. -/
def Heap.write (h : Heap) (r : Nat) (v : List Project) : Heap :=
  h.set r v

/-- Allocate a fresh array holding `v`; returns the grown heap and the new
reference.  This models both `[]` literals and `Array.prototype.slice`. -/
def Heap.alloc (h : Heap) (v : List Project) : Heap × Nat :=
  (h ++ [v], h.length)

/-- The state store (`class ProjectState` in `src/state/project-state.ts`,
with `listeners` inherited from `class State`).  Listener callbacks are
opaque, so they are an arbitrary type `L`; `projects` is a mutable array,
held by reference. -/
structure ProjectState (L : Type) where
  listeners : List L
  projectsRef : Nat

/-- Well-formedness: the store's array reference is allocated. -/
def ProjectState.WF {L : Type} (h : Heap) (s : ProjectState L) : Prop :=
  s.projectsRef < h.length

/-- The private constructor (`private projects: Project[] = []` together with
`protected listeners: Listener<T>[] = []`): allocates an empty projects
array. -/
def mkProjectState (L : Type) (h : Heap) : Heap × ProjectState L :=
  let (h', r) := h.alloc []
  (h', { listeners := [], projectsRef := r })

/-- The loop body of `updateListeners`: for each listener in order, evaluate
`this.projects.slice()` (a fresh copy of the current contents) and call the
listener with it.  The returned trace records each call with the reference
it received. -/
def notifyAll {L : Type} (h : Heap) (projectsRef : Nat) :
    List L → Heap × List (L × Nat)
  | [] => (h, [])
  | l :: ls =>
    let (h', r) := h.alloc (h.read projectsRef)
    let (h'', calls) := notifyAll h' projectsRef ls
    (h'', (l, r) :: calls)

/-- Method `ProjectState.updateListeners` (`src/state/project-state.ts`): one
notification round over all registered listeners. -/
def ProjectState.updateListeners {L : Type} (s : ProjectState L) (h : Heap) :
    Heap × List (L × Nat) :=
  notifyAll h s.projectsRef s.listeners

/-- Method `State.addListener` (`src/state/project-state.ts`): pushes the callback
onto the listener list.  The body performs no notification and touches no
array, hence the unchanged heap and the empty call trace. -/
def ProjectState.addListener {L : Type} (s : ProjectState L) (h : Heap)
    (listenerFunction : L) : Heap × ProjectState L × List (L × Nat) :=
  (h, { s with listeners := s.listeners ++ [listenerFunction] }, [])

/-- Method `ProjectState.addProject` (`src/state/project-state.ts`): constructs
`new Project(Math.random().toString(), title, description, numOfPeople,
ProjectStatus.Active)`, pushes it onto `this.projects`, then runs
`updateListeners`.  The value of `Math.random().toString()` is
nondeterministic and is passed in as `freshId`. -/
def ProjectState.addProject {L : Type} (s : ProjectState L) (h : Heap)
    (freshId title description : String) (numOfPeople : Int) :
    Heap × List (L × Nat) :=
  let newProject : Project :=
    { id := freshId, title := title, description := description,
      people := numOfPeople, status := ProjectStatus.Active }
  let h' := h.write s.projectsRef (h.read s.projectsRef ++ [newProject])
  s.updateListeners h'

/-- Linear scan for the first element satisfying the predicate, returning its
index (`Array.prototype.find` resolves to the first match in array order). -/
def findIndex (pred : Project → Bool) : List Project → Option Nat
  | [] => none
  | p :: ps => if pred p then some 0 else (findIndex pred ps).map (· + 1)

/-- Method `ProjectState.moveProject` (`src/state/project-state.ts`): finds the
first project whose `id` equals `projectId`; if found and its status differs
from `newStatus`, mutates that project's `status` in place; in every case
runs `updateListeners`. -/
def ProjectState.moveProject {L : Type} (s : ProjectState L) (h : Heap)
    (projectId : String) (newStatus : ProjectStatus) : Heap × List (L × Nat) :=
  let projects := h.read s.projectsRef
  let h' :=
    match findIndex (fun proj => proj.id == projectId) projects with
    | some i =>
      let project := projects.getD i default
      if project.status ≠ newStatus then
        h.write s.projectsRef (projects.set i { project with status := newStatus })
      else h
    | none => h
  s.updateListeners h'

/-- A JavaScript `string | number` value (the `value` field of
`Validatable`).  Numbers here are the integers the application feeds in;
they are modelled as `Int`. -/
inductive JSValue where
  | str (s : String)
  | num (n : Int)
deriving DecidableEq, Repr

/-- JavaScript `value.toString()` on a `string | number`. -/
def JSValue.asString : JSValue → String
  | .str s => s
  | .num n => toString n

/-- Whether the value is a string (`typeof value === "string"`). -/
def JSValue.isStr : JSValue → Bool
  | .str _ => true
  | .num _ => false

/-- Whether the value is a number (`typeof value === "number"`). -/
def JSValue.isNum : JSValue → Bool
  | .str _ => false
  | .num _ => true

/-- The `Validatable` interface (`src/app.ts`): a value plus optional
constraints.  The optional `required?: boolean` is read with a truthiness
test, so `none`/`undefined` and `false` coincide and it is modelled as a
`Bool` defaulting to `false`; the other four are read with `!= null` tests
and are modelled as `Option Int`. -/
structure Validatable where
  value : JSValue
  required : Bool := false
  minLength : Option Int := none
  maxLength : Option Int := none
  min : Option Int := none
  max : Option Int := none

/-- JavaScript `String.prototype.trim()`: strips leading and trailing
whitespace.  Modelled executably over the character list (drop whitespace
from the front, then from the back). -/
def jsTrim (s : String) : String :=
  String.mk (((s.data.dropWhile Char.isWhitespace).reverse.dropWhile
    Char.isWhitespace).reverse)

/-- The `validate` function (`src/app.ts`): starts from `true` and conjoins
each applicable check in source order. -/
def validate (validatableInput : Validatable) : Bool :=
  let isValid := true
  let isValid :=
    if validatableInput.required then
      isValid && ((jsTrim validatableInput.value.asString).length != 0)
    else isValid
  let isValid :=
    match validatableInput.minLength, validatableInput.value with
    | some ml, .str s => isValid && decide ((s.length : Int) ≥ ml)
    | _, _ => isValid
  let isValid :=
    match validatableInput.maxLength, validatableInput.value with
    | some ml, .str s => isValid && decide ((s.length : Int) ≤ ml)
    | _, _ => isValid
  let isValid :=
    match validatableInput.min, validatableInput.value with
    | some m, .num n => isValid && decide (n ≥ m)
    | _, _ => isValid
  let isValid :=
    match validatableInput.max, validatableInput.value with
    | some m, .num n => isValid && decide (n ≤ m)
    | _, _ => isValid
  isValid

/-- Blankness as the specification words it: the string is empty or consists
of whitespace only. -/
def blankString (s : String) : Prop :=
  s = "" ∨ ∀ c ∈ s.data, c.isWhitespace = true

/-- The validation contract in the specification's own words (spec-side
definition, used only to be compared with `validate` in the refinement
proof): `required` fails exactly when the value's string form is blank —
empty or whitespace-only; `minLength` / `maxLength` bound the length only
of string values; `min` / `max` bound only number values; absent
constraints are vacuously satisfied. -/
def validateSpec (v : Validatable) : Prop :=
  (v.required = true → ¬ blankString v.value.asString) ∧
  (∀ ml, v.minLength = some ml → ∀ s, v.value = .str s →
    ml ≤ (s.length : Int)) ∧
  (∀ ml, v.maxLength = some ml → ∀ s, v.value = .str s →
    (s.length : Int) ≤ ml) ∧
  (∀ m, v.min = some m → ∀ n, v.value = .num n → m ≤ n) ∧
  (∀ m, v.max = some m → ∀ n, v.value = .num n → n ≤ m)

/-- Method `ProjectInput.gatherUserInput` (`src/app.ts`): builds the three
`Validatable` requests from the raw field values, and either returns the
tuple (all three valid) or alerts and returns nothing.  The second component
is the list of alert messages surfaced.  `peopleNum` stands for
`+enteredPeople`, the numeric conversion of the raw people field (a
floating-point JavaScript coercion, passed in already converted). -/
def gatherUserInput (enteredTitle enteredDescription : String)
    (peopleNum : Int) : Option (String × String × Int) × List String :=
  let titleValidatable : Validatable :=
    { value := .str enteredTitle, required := true }
  let descriptionValidatable : Validatable :=
    { value := .str enteredDescription, required := true, minLength := some 5 }
  let peopleValidatable : Validatable :=
    { value := .num peopleNum, required := true, min := some 1, max := some 5 }
  if !validate titleValidatable || !validate descriptionValidatable
      || !validate peopleValidatable then
    (none, ["Invalid input, please try again!"])
  else
    (some (enteredTitle, enteredDescription, peopleNum), [])

/-- The three form input fields of `ProjectInput`. -/
structure FormFields where
  titleValue : String
  descriptionValue : String
  peopleValue : String
deriving DecidableEq, Repr

/-- Method `ProjectInput.clearInputs` (`src/app.ts`): blanks all three fields. -/
def clearInputs (_fields : FormFields) : FormFields :=
  { titleValue := "", descriptionValue := "", peopleValue := "" }

/-- Method `ProjectInput.submitHandler` (`src/app.ts`): runs `gatherUserInput`; on
an array result destructures it, calls `projectState.addProject` and clears
the inputs; otherwise leaves everything as is (the alert was already raised
inside `gatherUserInput`).  Returns the new heap, store, form fields, the
notification trace and the alert list.  `peopleNum` stands for
`+fields.peopleValue` and `freshId` for the id `addProject` generates. -/
def submitHandler {L : Type} (s : ProjectState L) (h : Heap)
    (fields : FormFields) (peopleNum : Int) (freshId : String) :
    Heap × FormFields × List (L × Nat) × List String :=
  match gatherUserInput fields.titleValue fields.descriptionValue peopleNum with
  | (some (title, description, people), alerts) =>
    let (h', calls) := s.addProject h freshId title description people
    (h', clearInputs fields, calls, alerts)
  | (none, alerts) => (h, fields, [], alerts)

/-- The list-component type tag (`"active" | "finished"` in `src/app.ts`). -/
inductive ListType where
  | active
  | finished
deriving DecidableEq, Repr

/-- The filter a `ProjectList` listener applies to each snapshot
(`src/app.ts`, the `projects.filter` inside the listener registered by
`ProjectList`). -/
def relevantProjects (type : ListType) (projects : List Project) :
    List Project :=
  projects.filter (fun prj =>
    match type with
    | .active => prj.status == ProjectStatus.Active
    | .finished => prj.status == ProjectStatus.Finished)

/-! ### Heap lemmas -/

theorem Heap.length_write (h : Heap) (r : Nat) (v : List Project) :
    (h.write r v).length = h.length := by
  simp [Heap.write]

theorem Heap.read_write_self (h : Heap) (r : Nat) (v : List Project)
    (hr : r < h.length) : (h.write r v).read r = v := by
  induction h generalizing r with
  | nil => simp at hr
  | cons a t ih =>
    cases r with
    | zero => simp [Heap.write, Heap.read]
    | succ n =>
      simp only [Heap.write, Heap.read, List.set_cons_succ, List.getD_cons_succ]
      exact ih n (by simpa using hr)

theorem Heap.read_write_ne (h : Heap) (r r' : Nat) (v : List Project)
    (hne : r ≠ r') : (h.write r v).read r' = h.read r' := by
  induction h generalizing r r' with
  | nil => simp [Heap.write, Heap.read]
  | cons a t ih =>
    cases r with
    | zero =>
      cases r' with
      | zero => exact absurd rfl hne
      | succ m => simp [Heap.write, Heap.read]
    | succ n =>
      cases r' with
      | zero => simp [Heap.write, Heap.read]
      | succ m =>
        simp only [Heap.write, Heap.read, List.set_cons_succ, List.getD_cons_succ]
        exact ih n m (by omega)

theorem Heap.read_append_left (h h₂ : Heap) (r : Nat) (hr : r < h.length) :
    Heap.read (h ++ h₂) r = h.read r := by
  induction h generalizing r with
  | nil => simp at hr
  | cons a t ih =>
    cases r with
    | zero => simp [Heap.read]
    | succ n =>
      simp only [Heap.read, List.cons_append, List.getD_cons_succ]
      exact ih n (by simpa using hr)

theorem Heap.read_alloc_self (h : Heap) (v : List Project) :
    (h.alloc v).1.read (h.alloc v).2 = v := by
  induction h with
  | nil => simp [Heap.alloc, Heap.read]
  | cons a t ih =>
    simp only [Heap.alloc, Heap.read, List.cons_append, List.length_cons,
      List.getD_cons_succ]
    exact ih

theorem Heap.length_alloc (h : Heap) (v : List Project) :
    (h.alloc v).1.length = h.length + 1 := by
  simp [Heap.alloc]

/-! ### Notification lemmas -/

theorem notifyAll_length {L : Type} (h : Heap) (pr : Nat) (ls : List L) :
    (notifyAll h pr ls).1.length = h.length + ls.length := by
  induction ls generalizing h with
  | nil => simp [notifyAll]
  | cons l ls ih =>
    simp only [notifyAll, Heap.alloc]
    rw [ih]
    simp only [List.length_append, List.length_cons, List.length_nil]
    omega

theorem notifyAll_read_low {L : Type} (h : Heap) (pr : Nat) (ls : List L)
    (r : Nat) (hr : r < h.length) :
    (notifyAll h pr ls).1.read r = h.read r := by
  induction ls generalizing h with
  | nil => simp [notifyAll]
  | cons l ls ih =>
    simp only [notifyAll, Heap.alloc]
    rw [ih (h ++ [h.read pr])
      (by simp only [List.length_append, List.length_cons, List.length_nil]; omega)]
    exact Heap.read_append_left h [h.read pr] r hr

theorem notifyAll_calls_fst {L : Type} (h : Heap) (pr : Nat) (ls : List L) :
    (notifyAll h pr ls).2.map Prod.fst = ls := by
  induction ls generalizing h with
  | nil => simp [notifyAll]
  | cons l ls ih =>
    simp only [notifyAll, Heap.alloc, List.map_cons]
    rw [ih]

theorem notifyAll_calls_snd {L : Type} (h : Heap) (pr : Nat) (ls : List L)
    (hpr : pr < h.length) :
    ∀ c ∈ (notifyAll h pr ls).2,
      h.length ≤ c.2 ∧ c.2 < (notifyAll h pr ls).1.length ∧
      (notifyAll h pr ls).1.read c.2 = h.read pr := by
  induction ls generalizing h with
  | nil => simp [notifyAll]
  | cons l ls ih =>
    intro c hc
    simp only [notifyAll, Heap.alloc, List.mem_cons] at hc
    have hread₁ : Heap.read (h ++ [h.read pr]) pr = h.read pr :=
      Heap.read_append_left h [h.read pr] pr hpr
    rcases hc with rfl | hc
    · refine ⟨le_refl _, ?_, ?_⟩
      · simp only [notifyAll, Heap.alloc]
        rw [notifyAll_length]
        simp only [List.length_append, List.length_cons, List.length_nil]
        omega
      · simp only [notifyAll, Heap.alloc]
        rw [notifyAll_read_low (h ++ [h.read pr]) pr ls h.length (by simp)]
        rw [show Heap.read (h ++ [h.read pr]) h.length = h.read pr from by
          simpa [Heap.alloc] using Heap.read_alloc_self h (h.read pr)]
    · have := ih (h ++ [h.read pr])
        (by simp only [List.length_append, List.length_cons, List.length_nil]; omega) c hc
      rw [hread₁] at this
      refine ⟨le_trans (by simp) this.1, ?_, ?_⟩
      · simpa only [notifyAll, Heap.alloc] using this.2.1
      · simpa only [notifyAll, Heap.alloc] using this.2.2

/-! ### List access helpers -/

theorem getD_set_self (l : List Project) (i : Nat) (a : Project)
    (h : i < l.length) : (l.set i a).getD i default = a := by
  induction l generalizing i with
  | nil => simp at h
  | cons b t ih =>
    cases i with
    | zero => simp
    | succ n =>
      simp only [List.set_cons_succ, List.getD_cons_succ]
      exact ih n (by simpa using h)

theorem getD_set_ne (l : List Project) (i j : Nat) (a : Project)
    (h : i ≠ j) : (l.set i a).getD j default = l.getD j default := by
  induction l generalizing i j with
  | nil => simp
  | cons b t ih =>
    cases i with
    | zero =>
      cases j with
      | zero => exact absurd rfl h
      | succ m => simp
    | succ n =>
      cases j with
      | zero => simp
      | succ m =>
        simp only [List.set_cons_succ, List.getD_cons_succ]
        exact ih n m (by omega)

theorem map_id_set (l : List Project) (i : Nat) (a : Project)
    (hid : a.id = (l.getD i default).id) :
    (l.set i a).map Project.id = l.map Project.id := by
  induction l generalizing i with
  | nil => simp
  | cons b t ih =>
    cases i with
    | zero => simp_all
    | succ n =>
      simp only [List.set_cons_succ, List.map_cons, List.getD_cons_succ] at *
      rw [ih n hid]

/-! ### findIndex lemmas -/

theorem findIndex_some_lt (pred : Project → Bool) (ps : List Project)
    (i : Nat) (hfind : findIndex pred ps = some i) : i < ps.length := by
  induction ps generalizing i with
  | nil => simp [findIndex] at hfind
  | cons p t ih =>
    by_cases hp : pred p = true
    · simp [findIndex, hp] at hfind
      subst hfind
      simp
    · simp only [Bool.not_eq_true] at hp
      cases hfi : findIndex pred t with
      | none => simp [findIndex, hp, hfi] at hfind
      | some j =>
        simp [findIndex, hp, hfi] at hfind
        subst hfind
        have := ih j hfi
        simp only [List.length_cons]
        omega

theorem findIndex_some_pred (pred : Project → Bool) (ps : List Project)
    (i : Nat) (hfind : findIndex pred ps = some i) :
    pred (ps.getD i default) = true := by
  induction ps generalizing i with
  | nil => simp [findIndex] at hfind
  | cons p t ih =>
    by_cases hp : pred p = true
    · simp [findIndex, hp] at hfind
      subst hfind
      simpa using hp
    · simp only [Bool.not_eq_true] at hp
      cases hfi : findIndex pred t with
      | none => simp [findIndex, hp, hfi] at hfind
      | some j =>
        simp [findIndex, hp, hfi] at hfind
        subst hfind
        simpa using ih j hfi

theorem findIndex_eq_none_iff (pred : Project → Bool) (ps : List Project) :
    findIndex pred ps = none ↔ ∀ p ∈ ps, pred p = false := by
  induction ps with
  | nil => simp [findIndex]
  | cons p t ih =>
    by_cases hp : pred p = true
    · simp [findIndex, hp]
    · cases hfi : findIndex pred t with
      | none =>
        simp only [Bool.not_eq_true] at hp
        simp [findIndex, hp, hfi]
        exact ih.mp hfi
      | some j =>
        simp only [Bool.not_eq_true] at hp
        simp [findIndex, hp, hfi]
        refine ⟨t.getD j default, ?_, findIndex_some_pred pred t j hfi⟩
        have hlt := findIndex_some_lt pred t j hfi
        rw [List.getD_eq_getElem t default hlt]
        exact List.getElem_mem hlt

theorem findIndex_some_first (pred : Project → Bool) (ps : List Project)
    (i : Nat) (hfind : findIndex pred ps = some i) :
    ∀ k, k < i → pred (ps.getD k default) = false := by
  induction ps generalizing i with
  | nil => simp [findIndex] at hfind
  | cons p t ih =>
    by_cases hp : pred p = true
    · simp [findIndex, hp] at hfind
      subst hfind
      intro k hk
      exact absurd hk (by omega)
    · simp only [Bool.not_eq_true] at hp
      cases hfi : findIndex pred t with
      | none => simp [findIndex, hp, hfi] at hfind
      | some j =>
        simp [findIndex, hp, hfi] at hfind
        subst hfind
        intro k hk
        cases k with
        | zero => simpa using hp
        | succ m =>
          simp only [List.getD_cons_succ]
          exact ih j hfi m (by omega)

/-! ### Store operation characterizations -/

theorem updateListeners_read {L : Type} (s : ProjectState L) (h : Heap)
    (hwf : s.WF h) :
    (s.updateListeners h).1.read s.projectsRef = h.read s.projectsRef :=
  notifyAll_read_low h s.projectsRef s.listeners s.projectsRef hwf

theorem updateListeners_calls_fst {L : Type} (s : ProjectState L) (h : Heap) :
    (s.updateListeners h).2.map Prod.fst = s.listeners :=
  notifyAll_calls_fst h s.projectsRef s.listeners

theorem updateListeners_snapshot {L : Type} (s : ProjectState L) (h : Heap)
    (hwf : s.WF h) :
    ∀ c ∈ (s.updateListeners h).2,
      c.2 ≠ s.projectsRef ∧
      (s.updateListeners h).1.read c.2 = h.read s.projectsRef := by
  intro c hc
  have hs := notifyAll_calls_snd h s.projectsRef s.listeners hwf c hc
  refine ⟨?_, hs.2.2⟩
  intro hEq
  have hwf' : s.projectsRef < h.length := hwf
  have h1 := hs.1
  omega

theorem addProject_heapEq {L : Type} (s : ProjectState L) (h : Heap)
    (freshId title description : String) (numOfPeople : Int) :
    s.addProject h freshId title description numOfPeople =
      s.updateListeners (h.write s.projectsRef (h.read s.projectsRef ++
        [{ id := freshId, title := title, description := description,
           people := numOfPeople, status := ProjectStatus.Active }])) := rfl

theorem addProject_read {L : Type} (s : ProjectState L) (h : Heap)
    (freshId title description : String) (numOfPeople : Int) (hwf : s.WF h) :
    (s.addProject h freshId title description numOfPeople).1.read s.projectsRef
      = h.read s.projectsRef ++
        [{ id := freshId, title := title, description := description,
           people := numOfPeople, status := ProjectStatus.Active }] := by
  rw [addProject_heapEq]
  rw [updateListeners_read s _ (by simpa [ProjectState.WF, Heap.write] using hwf)]
  exact Heap.read_write_self h s.projectsRef _ hwf

theorem addProject_calls_fst {L : Type} (s : ProjectState L) (h : Heap)
    (freshId title description : String) (numOfPeople : Int) :
    (s.addProject h freshId title description numOfPeople).2.map Prod.fst
      = s.listeners := by
  rw [addProject_heapEq]
  exact updateListeners_calls_fst s _

theorem addProject_snapshot {L : Type} (s : ProjectState L) (h : Heap)
    (freshId title description : String) (numOfPeople : Int) (hwf : s.WF h) :
    ∀ c ∈ (s.addProject h freshId title description numOfPeople).2,
      c.2 ≠ s.projectsRef ∧
      (s.addProject h freshId title description numOfPeople).1.read c.2
        = h.read s.projectsRef ++
          [{ id := freshId, title := title, description := description,
             people := numOfPeople, status := ProjectStatus.Active }] := by
  rw [addProject_heapEq]
  intro c hc
  have hwf' : s.WF (h.write s.projectsRef (h.read s.projectsRef ++
      [{ id := freshId, title := title, description := description,
         people := numOfPeople, status := ProjectStatus.Active }])) := by
    simpa [ProjectState.WF, Heap.write] using hwf
  have := updateListeners_snapshot s _ hwf' c hc
  refine ⟨this.1, ?_⟩
  rw [this.2]
  exact Heap.read_write_self h s.projectsRef _ hwf

theorem moveProject_eq_found_ne {L : Type} (s : ProjectState L) (h : Heap)
    (projectId : String) (newStatus : ProjectStatus) (i : Nat)
    (hfind : findIndex (fun proj => proj.id == projectId)
        (h.read s.projectsRef) = some i)
    (hst : ((h.read s.projectsRef).getD i default).status ≠ newStatus) :
    s.moveProject h projectId newStatus =
      s.updateListeners (h.write s.projectsRef ((h.read s.projectsRef).set i
        { (h.read s.projectsRef).getD i default with status := newStatus })) := by
  simp only [ProjectState.moveProject, hfind]
  rw [if_pos hst]

theorem moveProject_eq_found_same {L : Type} (s : ProjectState L) (h : Heap)
    (projectId : String) (newStatus : ProjectStatus) (i : Nat)
    (hfind : findIndex (fun proj => proj.id == projectId)
        (h.read s.projectsRef) = some i)
    (hst : ((h.read s.projectsRef).getD i default).status = newStatus) :
    s.moveProject h projectId newStatus = s.updateListeners h := by
  simp only [ProjectState.moveProject, hfind]
  rw [if_neg (by simpa using hst)]

theorem moveProject_eq_not_found {L : Type} (s : ProjectState L) (h : Heap)
    (projectId : String) (newStatus : ProjectStatus)
    (hfind : findIndex (fun proj => proj.id == projectId)
        (h.read s.projectsRef) = none) :
    s.moveProject h projectId newStatus = s.updateListeners h := by
  simp only [ProjectState.moveProject, hfind]

/-- Writing repeatedly through a reference different from `r'` never changes
what `r'` refers to. -/
theorem read_foldl_write_ne (h : Heap) (r r' : Nat) (hne : r ≠ r')
    (vs : List (List Project)) :
    Heap.read (vs.foldl (fun acc v => acc.write r v) h) r' = h.read r' := by
  induction vs generalizing h with
  | nil => rfl
  | cons v vs ih =>
    simp only [List.foldl_cons]
    rw [ih (h.write r v)]
    exact Heap.read_write_ne h r r' v hne

/-! ### Claim theorems -/

/-- C1: `addProject` appends exactly one new project — status `Active`, id
the freshly generated value — to the collection (count grows by one, all
previously stored projects unchanged), and triggers exactly one notification
round in which every registered subscriber is called once, receiving a
snapshot copy (a reference distinct from the store's array) that contains
the new project. -/
theorem addProject_appends_one_and_notifies {L : Type} (s : ProjectState L)
    (h : Heap) (freshId title description : String) (numOfPeople : Int)
    (hwf : s.WF h) :
    (s.addProject h freshId title description numOfPeople).1.read s.projectsRef
        = h.read s.projectsRef ++
          [{ id := freshId, title := title, description := description,
             people := numOfPeople, status := ProjectStatus.Active }] ∧
    ((s.addProject h freshId title description numOfPeople).1.read
        s.projectsRef).length = (h.read s.projectsRef).length + 1 ∧
    (s.addProject h freshId title description numOfPeople).2.map Prod.fst
        = s.listeners ∧
    ∀ c ∈ (s.addProject h freshId title description numOfPeople).2,
      c.2 ≠ s.projectsRef ∧
      { id := freshId, title := title, description := description,
        people := numOfPeople, status := ProjectStatus.Active } ∈
        (s.addProject h freshId title description numOfPeople).1.read c.2 := by
  refine ⟨addProject_read s h freshId title description numOfPeople hwf, ?_, ?_, ?_⟩
  · rw [addProject_read s h freshId title description numOfPeople hwf]
    simp
  · exact addProject_calls_fst s h freshId title description numOfPeople
  · intro c hc
    have := addProject_snapshot s h freshId title description numOfPeople hwf c hc
    refine ⟨this.1, ?_⟩
    rw [this.2]
    simp

theorem addProject_appends_one_and_notifies_witness :
    ProjectState.WF [[]] (⟨[0, 1], 0⟩ : ProjectState Nat) ∧
    ((ProjectState.addProject (L := Nat) ⟨[0, 1], 0⟩ [[]] "0.5" "Build API"
        "Design and implement" 3).1.read 0
      = [{ id := "0.5", title := "Build API",
           description := "Design and implement", people := 3,
           status := ProjectStatus.Active }] ∧
     ((ProjectState.addProject (L := Nat) ⟨[0, 1], 0⟩ [[]] "0.5" "Build API"
        "Design and implement" 3).1.read 0).length = 1 ∧
     (ProjectState.addProject (L := Nat) ⟨[0, 1], 0⟩ [[]] "0.5" "Build API"
        "Design and implement" 3).2.map Prod.fst = [0, 1] ∧
     ∀ c ∈ (ProjectState.addProject (L := Nat) ⟨[0, 1], 0⟩ [[]] "0.5"
        "Build API" "Design and implement" 3).2,
       c.2 ≠ 0 ∧
       { id := "0.5", title := "Build API",
         description := "Design and implement", people := 3,
         status := ProjectStatus.Active } ∈
         (ProjectState.addProject (L := Nat) ⟨[0, 1], 0⟩ [[]] "0.5"
            "Build API" "Design and implement" 3).1.read c.2) := by
  have hwf : ProjectState.WF [[]] (⟨[0, 1], 0⟩ : ProjectState Nat) := by
    simp [ProjectState.WF]
  exact ⟨hwf, addProject_appends_one_and_notifies (L := Nat) ⟨[0, 1], 0⟩ [[]]
    "0.5" "Build API" "Design and implement" 3 hwf⟩

/-- C9: the store itself performs no validation: for every input triple —
the statement quantifies over all titles, descriptions and people counts,
with no validity requirement whatsoever, so in particular over triples that
violate the form layer's constraint set — `addProject` succeeds, appends the
project exactly as given and runs a full notification round.  Validation
lives only in the form layer (`gatherUserInput`). -/
theorem addProject_no_validation {L : Type} (s : ProjectState L) (h : Heap)
    (title description : String) (numOfPeople : Int) (freshId : String)
    (hwf : s.WF h) :
    (s.addProject h freshId title description numOfPeople).1.read s.projectsRef
        = h.read s.projectsRef ++
          [{ id := freshId, title := title, description := description,
             people := numOfPeople, status := ProjectStatus.Active }] ∧
    (s.addProject h freshId title description numOfPeople).2.map Prod.fst
        = s.listeners :=
  ⟨addProject_read s h freshId title description numOfPeople hwf,
   addProject_calls_fst s h freshId title description numOfPeople⟩

/-- Witness for C9 at a triple the form layer would reject (empty title,
description of length 3, people count 0): the store appends it anyway. -/
theorem addProject_no_validation_witness :
    ProjectState.WF [[]] (⟨[4], 0⟩ : ProjectState Nat) ∧
    ((ProjectState.addProject (L := Nat) ⟨[4], 0⟩ [[]] "0.99" "" "abc" 0).1.read 0
        = [{ id := "0.99", title := "", description := "abc", people := 0,
             status := ProjectStatus.Active }] ∧
     (ProjectState.addProject (L := Nat) ⟨[4], 0⟩ [[]] "0.99" "" "abc" 0).2.map
        Prod.fst = [4]) := by
  have hwf : ProjectState.WF [[]] (⟨[4], 0⟩ : ProjectState Nat) := by
    simp [ProjectState.WF]
  exact ⟨hwf, addProject_no_validation (L := Nat) ⟨[4], 0⟩ [[]] "" "abc" 0
    "0.99" hwf⟩

/-- C6: every snapshot delivered during a notification round is a copy: its
reference differs from the store's array reference, it holds the store's
contents at notification time, and no sequence of mutations performed
through the snapshot reference changes what the store's own reference holds
(nor did the round itself change it). -/
theorem updateListeners_snapshots_isolated {L : Type} (s : ProjectState L)
    (h : Heap) (hwf : s.WF h) :
    (s.updateListeners h).1.read s.projectsRef = h.read s.projectsRef ∧
    ∀ c ∈ (s.updateListeners h).2,
      c.2 ≠ s.projectsRef ∧
      (s.updateListeners h).1.read c.2 = h.read s.projectsRef ∧
      ∀ vs : List (List Project),
        Heap.read (vs.foldl (fun acc v => acc.write c.2 v)
            (s.updateListeners h).1) s.projectsRef
          = h.read s.projectsRef := by
  refine ⟨updateListeners_read s h hwf, ?_⟩
  intro c hc
  have hsnap := updateListeners_snapshot s h hwf c hc
  refine ⟨hsnap.1, hsnap.2, ?_⟩
  intro vs
  rw [read_foldl_write_ne _ c.2 s.projectsRef hsnap.1 vs]
  exact updateListeners_read s h hwf

/-- Witness for C6: one project, two subscribers; the snapshots are fresh
references and hammering them leaves the store's array alone. -/
theorem updateListeners_snapshots_isolated_witness :
    ProjectState.WF
      [[{ id := "0.1", title := "t", description := "d", people := 2,
          status := ProjectStatus.Active }]]
      (⟨[8, 9], 0⟩ : ProjectState Nat) ∧
    ((ProjectState.updateListeners (L := Nat) ⟨[8, 9], 0⟩
        [[{ id := "0.1", title := "t", description := "d", people := 2,
            status := ProjectStatus.Active }]]).1.read 0
      = [{ id := "0.1", title := "t", description := "d", people := 2,
           status := ProjectStatus.Active }] ∧
     ∀ c ∈ (ProjectState.updateListeners (L := Nat) ⟨[8, 9], 0⟩
        [[{ id := "0.1", title := "t", description := "d", people := 2,
            status := ProjectStatus.Active }]]).2,
       c.2 ≠ 0 ∧
       (ProjectState.updateListeners (L := Nat) ⟨[8, 9], 0⟩
          [[{ id := "0.1", title := "t", description := "d", people := 2,
              status := ProjectStatus.Active }]]).1.read c.2
         = [{ id := "0.1", title := "t", description := "d", people := 2,
              status := ProjectStatus.Active }] ∧
       ∀ vs : List (List Project),
         Heap.read (vs.foldl (fun acc v => acc.write c.2 v)
             (ProjectState.updateListeners (L := Nat) ⟨[8, 9], 0⟩
               [[{ id := "0.1", title := "t", description := "d", people := 2,
                   status := ProjectStatus.Active }]]).1) 0
           = [{ id := "0.1", title := "t", description := "d", people := 2,
                status := ProjectStatus.Active }]) := by
  have hwf : ProjectState.WF
      [[{ id := "0.1", title := "t", description := "d", people := 2,
          status := ProjectStatus.Active }]]
      (⟨[8, 9], 0⟩ : ProjectState Nat) := by
    simp [ProjectState.WF]
  exact ⟨hwf, updateListeners_snapshots_isolated (L := Nat) ⟨[8, 9], 0⟩ _ hwf⟩

/-- C8: `addListener` appends the callback to the listener list, performs no
call to it (empty call trace), changes neither the heap nor the store's
array reference — hence no replay of current state — and the new callback is
then called on every subsequent `addProject` or `moveProject`. -/
theorem addListener_registers_silently {L : Type} (s : ProjectState L)
    (h h' : Heap) (l : L) (freshId title description projectId : String)
    (numOfPeople : Int) (newStatus : ProjectStatus) :
    (s.addListener h l).1 = h ∧
    (s.addListener h l).2.1.listeners = s.listeners ++ [l] ∧
    (s.addListener h l).2.1.projectsRef = s.projectsRef ∧
    (s.addListener h l).2.2 = [] ∧
    ((s.addListener h l).2.1.addProject h' freshId title description
        numOfPeople).2.map Prod.fst = s.listeners ++ [l] ∧
    ((s.addListener h l).2.1.moveProject h' projectId newStatus).2.map
        Prod.fst = s.listeners ++ [l] := by
  refine ⟨rfl, rfl, rfl, rfl, ?_, ?_⟩
  · exact addProject_calls_fst _ h' freshId title description numOfPeople
  · cases hfi : findIndex (fun proj => proj.id == projectId)
        (h'.read (s.addListener h l).2.1.projectsRef) with
    | none =>
      rw [moveProject_eq_not_found _ h' projectId newStatus hfi]
      exact updateListeners_calls_fst _ h'
    | some i =>
      by_cases hst : ((h'.read (s.addListener h l).2.1.projectsRef).getD
          i default).status = newStatus
      · rw [moveProject_eq_found_same _ h' projectId newStatus i hfi hst]
        exact updateListeners_calls_fst _ h'
      · rw [moveProject_eq_found_ne _ h' projectId newStatus i hfi hst]
        exact updateListeners_calls_fst _ _

/-- A first-match witness pins down `findIndex`. -/
theorem findIndex_eq_some (pred : Project → Bool) (ps : List Project)
    (i : Nat) (hlt : i < ps.length) (hpred : pred (ps.getD i default) = true)
    (hfirst : ∀ k, k < i → pred (ps.getD k default) = false) :
    findIndex pred ps = some i := by
  induction ps generalizing i with
  | nil => simp at hlt
  | cons p t ih =>
    cases i with
    | zero =>
      simp only [List.getD_cons_zero] at hpred
      simp [findIndex, hpred]
    | succ m =>
      have hp0 : pred p = false := by simpa using hfirst 0 (Nat.succ_pos m)
      simp only [findIndex, hp0, Bool.false_eq_true, if_false]
      rw [ih m (by simpa using hlt) (by simpa using hpred)
        (fun k hk => by simpa using hfirst (k + 1) (by omega))]
      rfl

/-- C5: `transitionStatus`/`moveProject` on an identifier matching no stored
project leaves the collection entirely unchanged — same projects, same
fields, same order — yet still performs exactly one notification round in
which every subscriber receives a snapshot of the unchanged collection; the
operation is total, no error is produced. -/
theorem moveProject_unknown_id_noop {L : Type} (s : ProjectState L) (h : Heap)
    (projectId : String) (newStatus : ProjectStatus) (hwf : s.WF h)
    (hmiss : ∀ p ∈ h.read s.projectsRef, p.id ≠ projectId) :
    (s.moveProject h projectId newStatus).1.read s.projectsRef
        = h.read s.projectsRef ∧
    (s.moveProject h projectId newStatus).2.map Prod.fst = s.listeners ∧
    ∀ c ∈ (s.moveProject h projectId newStatus).2,
      (s.moveProject h projectId newStatus).1.read c.2
        = h.read s.projectsRef := by
  have hfi : findIndex (fun proj => proj.id == projectId)
      (h.read s.projectsRef) = none := by
    rw [findIndex_eq_none_iff]
    intro p hp
    simpa using hmiss p hp
  rw [moveProject_eq_not_found s h projectId newStatus hfi]
  exact ⟨updateListeners_read s h hwf, updateListeners_calls_fst s h,
    fun c hc => (updateListeners_snapshot s h hwf c hc).2⟩

/-- Witness for C5: a store holding one project, probed with an id held by
no project. -/
theorem moveProject_unknown_id_noop_witness :
    (ProjectState.WF
        [[{ id := "0.5", title := "t", description := "d", people := 1,
            status := ProjectStatus.Active }]]
        (⟨[3], 0⟩ : ProjectState Nat) ∧
      ∀ p ∈ Heap.read
          [[{ id := "0.5", title := "t", description := "d", people := 1,
              status := ProjectStatus.Active }]] 0, p.id ≠ "0.7") ∧
    ((ProjectState.moveProject (L := Nat) ⟨[3], 0⟩
        [[{ id := "0.5", title := "t", description := "d", people := 1,
            status := ProjectStatus.Active }]] "0.7"
        ProjectStatus.Finished).1.read 0
      = [{ id := "0.5", title := "t", description := "d", people := 1,
           status := ProjectStatus.Active }] ∧
     (ProjectState.moveProject (L := Nat) ⟨[3], 0⟩
        [[{ id := "0.5", title := "t", description := "d", people := 1,
            status := ProjectStatus.Active }]] "0.7"
        ProjectStatus.Finished).2.map Prod.fst = [3] ∧
     ∀ c ∈ (ProjectState.moveProject (L := Nat) ⟨[3], 0⟩
        [[{ id := "0.5", title := "t", description := "d", people := 1,
            status := ProjectStatus.Active }]] "0.7"
        ProjectStatus.Finished).2,
       (ProjectState.moveProject (L := Nat) ⟨[3], 0⟩
          [[{ id := "0.5", title := "t", description := "d", people := 1,
              status := ProjectStatus.Active }]] "0.7"
          ProjectStatus.Finished).1.read c.2
         = [{ id := "0.5", title := "t", description := "d", people := 1,
              status := ProjectStatus.Active }]) := by
  have hwf : ProjectState.WF
      [[{ id := "0.5", title := "t", description := "d", people := 1,
          status := ProjectStatus.Active }]] (⟨[3], 0⟩ : ProjectState Nat) := by
    simp [ProjectState.WF]
  have hmiss : ∀ p ∈ Heap.read
      [[{ id := "0.5", title := "t", description := "d", people := 1,
          status := ProjectStatus.Active }]] 0, p.id ≠ "0.7" := by decide
  exact ⟨⟨hwf, hmiss⟩, moveProject_unknown_id_noop (L := Nat) ⟨[3], 0⟩ _ "0.7"
    ProjectStatus.Finished hwf hmiss⟩

/-- Counterexample to C4 as stated: identifiers are pseudo-random and may
collide.  In the store `[⟨"0.5", …, Finished⟩, ⟨"0.5", …, Active⟩]` there is
a project with identifier `"0.5"` and status `Active`, but
`moveProject "0.5" Finished` finds the first match — already `Finished` —
changes nothing, and a project with that identifier is still in the
active-filtered view afterwards (the `Active` one keeps status `Active`). -/
theorem moveProject_duplicate_id_counterexample :
    (∃ p ∈ Heap.read [[⟨"0.5", "a", "b", 1, ProjectStatus.Finished⟩,
        ⟨"0.5", "c", "e", 2, ProjectStatus.Active⟩]] 0,
      p.id = "0.5" ∧ p.status = ProjectStatus.Active) ∧
    (((ProjectState.moveProject (L := Nat) ⟨[], 0⟩
        [[⟨"0.5", "a", "b", 1, ProjectStatus.Finished⟩,
          ⟨"0.5", "c", "e", 2, ProjectStatus.Active⟩]] "0.5"
        ProjectStatus.Finished).1.read 0).getD 1 default).status
      = ProjectStatus.Active ∧
    ∃ q ∈ relevantProjects ListType.active
        ((ProjectState.moveProject (L := Nat) ⟨[], 0⟩
          [[⟨"0.5", "a", "b", 1, ProjectStatus.Finished⟩,
            ⟨"0.5", "c", "e", 2, ProjectStatus.Active⟩]] "0.5"
          ProjectStatus.Finished).1.read 0), q.id = "0.5" := by
  decide

/-- C4 (amended): if the store holds exactly one project with identifier
`projectId` — say at position `i` — and that project is `Active`, then
`moveProject projectId Finished` sets its status to `Finished` in place:
the collection keeps its length, every other position is untouched, every
snapshot delivered by the notification round is the updated collection, in
which a project with that identifier sits in the finished-filtered view and
none remains in the active-filtered view. -/
theorem moveProject_finishes_unique_active {L : Type} (s : ProjectState L)
    (h : Heap) (projectId : String) (i : Nat) (hwf : s.WF h)
    (hlt : i < (h.read s.projectsRef).length)
    (hid : ((h.read s.projectsRef).getD i default).id = projectId)
    (hact : ((h.read s.projectsRef).getD i default).status
      = ProjectStatus.Active)
    (huniq : ∀ j, j < (h.read s.projectsRef).length →
      ((h.read s.projectsRef).getD j default).id = projectId → j = i) :
    ((s.moveProject h projectId ProjectStatus.Finished).1.read s.projectsRef
      = (h.read s.projectsRef).set i
        { (h.read s.projectsRef).getD i default with
          status := ProjectStatus.Finished }) ∧
    ((s.moveProject h projectId ProjectStatus.Finished).1.read
        s.projectsRef).length = (h.read s.projectsRef).length ∧
    (∀ j, j ≠ i →
      ((s.moveProject h projectId ProjectStatus.Finished).1.read
          s.projectsRef).getD j default
        = (h.read s.projectsRef).getD j default) ∧
    (∃ q ∈ relevantProjects ListType.finished
        ((s.moveProject h projectId ProjectStatus.Finished).1.read
          s.projectsRef), q.id = projectId) ∧
    (∀ q ∈ relevantProjects ListType.active
        ((s.moveProject h projectId ProjectStatus.Finished).1.read
          s.projectsRef), q.id ≠ projectId) ∧
    (s.moveProject h projectId ProjectStatus.Finished).2.map Prod.fst
        = s.listeners ∧
    ∀ c ∈ (s.moveProject h projectId ProjectStatus.Finished).2,
      (s.moveProject h projectId ProjectStatus.Finished).1.read c.2
        = (h.read s.projectsRef).set i
          { (h.read s.projectsRef).getD i default with
            status := ProjectStatus.Finished } := by
  have hfind : findIndex (fun proj => proj.id == projectId)
      (h.read s.projectsRef) = some i := by
    refine findIndex_eq_some _ _ i hlt (by simpa using hid) ?_
    intro k hk
    by_contra hcontra
    simp only [Bool.not_eq_false, beq_iff_eq] at hcontra
    have := huniq k (by omega) hcontra
    omega
  have hne : ((h.read s.projectsRef).getD i default).status
      ≠ ProjectStatus.Finished := by
    rw [hact]
    simp
  rw [moveProject_eq_found_ne s h projectId ProjectStatus.Finished i hfind hne]
  set newPs := (h.read s.projectsRef).set i
    { (h.read s.projectsRef).getD i default with
      status := ProjectStatus.Finished } with hnewPs
  have hwf' : s.WF (h.write s.projectsRef newPs) := by
    simpa [ProjectState.WF, Heap.write] using hwf
  have hreadw : (h.write s.projectsRef newPs).read s.projectsRef = newPs :=
    Heap.read_write_self h s.projectsRef newPs hwf
  have hread : (s.updateListeners (h.write s.projectsRef newPs)).1.read
      s.projectsRef = newPs := by
    rw [updateListeners_read s _ hwf', hreadw]
  have hlen : newPs.length = (h.read s.projectsRef).length := by
    simp [hnewPs]
  refine ⟨hread, by rw [hread, hlen], ?_, ?_, ?_, ?_, ?_⟩
  · intro j hj
    rw [hread, hnewPs]
    exact getD_set_ne _ i j _ (fun hEq => hj hEq.symm)
  · refine ⟨{ (h.read s.projectsRef).getD i default with
      status := ProjectStatus.Finished }, ?_, hid⟩
    rw [hread]
    refine List.mem_filter.mpr ⟨?_, by simp⟩
    have hgd : newPs.getD i default
        = { (h.read s.projectsRef).getD i default with
            status := ProjectStatus.Finished } :=
      getD_set_self _ i _ (by omega)
    rw [← hgd, List.getD_eq_getElem newPs default (by omega)]
    exact List.getElem_mem _
  · intro q hq
    rw [hread] at hq
    have hq' := List.mem_filter.mp hq
    have hmem := hq'.1
    have hstat : q.status = ProjectStatus.Active := by
      simpa [relevantProjects] using hq'.2
    obtain ⟨j, hjlt, hjq⟩ := List.mem_iff_getElem.mp hmem
    have hjlt' : j < (h.read s.projectsRef).length := by
      rw [hnewPs] at hjlt
      simpa using hjlt
    have hjgd : newPs.getD j default = q := by
      rw [List.getD_eq_getElem newPs default hjlt]
      exact hjq
    by_cases hji : j = i
    · subst hji
      rw [getD_set_self _ j _ hjlt'] at hjgd
      rw [← hjgd] at hstat
      simp at hstat
    · rw [hnewPs, getD_set_ne _ i j _ (fun hEq => hji hEq.symm)] at hjgd
      intro hqid
      have : j = i := huniq j hjlt' (by rw [hjgd]; exact hqid)
      exact hji this
  · exact updateListeners_calls_fst s _
  · intro c hc
    have := (updateListeners_snapshot s _ hwf' c hc).2
    rw [this, hreadw]

/-- Witness for the amended C4: two projects with distinct identifiers, the
unique `"0.9"` one `Active`; finishing it works as the theorem states. -/
theorem moveProject_finishes_unique_active_witness :
    (ProjectState.WF
        [[⟨"0.1", "t1", "d1", 1, ProjectStatus.Active⟩,
          ⟨"0.9", "t2", "d2", 2, ProjectStatus.Active⟩]]
        (⟨[2], 0⟩ : ProjectState Nat) ∧
      1 < (Heap.read [[⟨"0.1", "t1", "d1", 1, ProjectStatus.Active⟩,
          ⟨"0.9", "t2", "d2", 2, ProjectStatus.Active⟩]] 0).length ∧
      ((Heap.read [[⟨"0.1", "t1", "d1", 1, ProjectStatus.Active⟩,
          ⟨"0.9", "t2", "d2", 2, ProjectStatus.Active⟩]] 0).getD 1
          default).id = "0.9" ∧
      (∀ j, j < (Heap.read [[⟨"0.1", "t1", "d1", 1, ProjectStatus.Active⟩,
          ⟨"0.9", "t2", "d2", 2, ProjectStatus.Active⟩]] 0).length →
        ((Heap.read [[⟨"0.1", "t1", "d1", 1, ProjectStatus.Active⟩,
            ⟨"0.9", "t2", "d2", 2, ProjectStatus.Active⟩]] 0).getD j
            default).id = "0.9" → j = 1)) ∧
    ((ProjectState.moveProject (L := Nat) ⟨[2], 0⟩
        [[⟨"0.1", "t1", "d1", 1, ProjectStatus.Active⟩,
          ⟨"0.9", "t2", "d2", 2, ProjectStatus.Active⟩]] "0.9"
        ProjectStatus.Finished).1.read 0
      = [⟨"0.1", "t1", "d1", 1, ProjectStatus.Active⟩,
         ⟨"0.9", "t2", "d2", 2, ProjectStatus.Finished⟩] ∧
     (∃ q ∈ relevantProjects ListType.finished
        ((ProjectState.moveProject (L := Nat) ⟨[2], 0⟩
          [[⟨"0.1", "t1", "d1", 1, ProjectStatus.Active⟩,
            ⟨"0.9", "t2", "d2", 2, ProjectStatus.Active⟩]] "0.9"
          ProjectStatus.Finished).1.read 0), q.id = "0.9") ∧
     (∀ q ∈ relevantProjects ListType.active
        ((ProjectState.moveProject (L := Nat) ⟨[2], 0⟩
          [[⟨"0.1", "t1", "d1", 1, ProjectStatus.Active⟩,
            ⟨"0.9", "t2", "d2", 2, ProjectStatus.Active⟩]] "0.9"
          ProjectStatus.Finished).1.read 0), q.id ≠ "0.9") ∧
     (ProjectState.moveProject (L := Nat) ⟨[2], 0⟩
        [[⟨"0.1", "t1", "d1", 1, ProjectStatus.Active⟩,
          ⟨"0.9", "t2", "d2", 2, ProjectStatus.Active⟩]] "0.9"
        ProjectStatus.Finished).2.map Prod.fst = [2]) := by
  have hwf : ProjectState.WF
      [[⟨"0.1", "t1", "d1", 1, ProjectStatus.Active⟩,
        ⟨"0.9", "t2", "d2", 2, ProjectStatus.Active⟩]]
      (⟨[2], 0⟩ : ProjectState Nat) := by
    simp [ProjectState.WF]
  have hlt : 1 < (Heap.read [[⟨"0.1", "t1", "d1", 1, ProjectStatus.Active⟩,
      ⟨"0.9", "t2", "d2", 2, ProjectStatus.Active⟩]] 0).length := by decide
  have hid : ((Heap.read [[⟨"0.1", "t1", "d1", 1, ProjectStatus.Active⟩,
      ⟨"0.9", "t2", "d2", 2, ProjectStatus.Active⟩]] 0).getD 1
      default).id = "0.9" := by decide
  have hact : ((Heap.read [[⟨"0.1", "t1", "d1", 1, ProjectStatus.Active⟩,
      ⟨"0.9", "t2", "d2", 2, ProjectStatus.Active⟩]] 0).getD 1
      default).status = ProjectStatus.Active := by decide
  have huniq : ∀ j, j < (Heap.read
      [[⟨"0.1", "t1", "d1", 1, ProjectStatus.Active⟩,
        ⟨"0.9", "t2", "d2", 2, ProjectStatus.Active⟩]] 0).length →
      ((Heap.read [[⟨"0.1", "t1", "d1", 1, ProjectStatus.Active⟩,
          ⟨"0.9", "t2", "d2", 2, ProjectStatus.Active⟩]] 0).getD j
          default).id = "0.9" → j = 1 := by decide
  have hmain := moveProject_finishes_unique_active (L := Nat) ⟨[2], 0⟩
    [[⟨"0.1", "t1", "d1", 1, ProjectStatus.Active⟩,
      ⟨"0.9", "t2", "d2", 2, ProjectStatus.Active⟩]] "0.9" 1
    hwf hlt hid hact huniq
  exact ⟨⟨hwf, hlt, hid, huniq⟩,
    hmain.1, hmain.2.2.2.1, hmain.2.2.2.2.1, hmain.2.2.2.2.2.1⟩

/-- C10: when identifiers collide, `moveProject` touches only the first
project matching the identifier in insertion order: position `i` returned by
the linear scan is the first match (its id matches, all earlier ones do
not), and every other position — in particular every later project sharing
the identifier — is left exactly as it was. -/
theorem moveProject_mutates_first_match_only {L : Type} (s : ProjectState L)
    (h : Heap) (projectId : String) (newStatus : ProjectStatus) (i : Nat)
    (hwf : s.WF h)
    (hfind : findIndex (fun proj => proj.id == projectId)
      (h.read s.projectsRef) = some i) :
    ((h.read s.projectsRef).getD i default).id = projectId ∧
    (∀ k, k < i →
      ((h.read s.projectsRef).getD k default).id ≠ projectId) ∧
    ∀ j, j ≠ i →
      ((s.moveProject h projectId newStatus).1.read s.projectsRef).getD j
          default
        = (h.read s.projectsRef).getD j default := by
  refine ⟨by simpa using findIndex_some_pred _ _ i hfind, ?_, ?_⟩
  · intro k hk
    have := findIndex_some_first _ _ i hfind k hk
    simpa using this
  · intro j hj
    by_cases hst : ((h.read s.projectsRef).getD i default).status = newStatus
    · rw [moveProject_eq_found_same s h projectId newStatus i hfind hst,
        updateListeners_read s h hwf]
    · rw [moveProject_eq_found_ne s h projectId newStatus i hfind hst]
      have hwf' : s.WF (h.write s.projectsRef ((h.read s.projectsRef).set i
          { (h.read s.projectsRef).getD i default with status := newStatus })) := by
        simpa [ProjectState.WF, Heap.write] using hwf
      rw [updateListeners_read s _ hwf',
        Heap.read_write_self h s.projectsRef _ hwf]
      exact getD_set_ne _ i j _ (fun hEq => hj hEq.symm)

/-- Witness for C10: two projects share id `"0.5"`; moving it to `Finished`
rewrites only the first, the second keeps all its fields. -/
theorem moveProject_mutates_first_match_only_witness :
    (ProjectState.WF
        [[⟨"0.5", "t1", "d1", 1, ProjectStatus.Active⟩,
          ⟨"0.5", "t2", "d2", 2, ProjectStatus.Active⟩]]
        (⟨[6], 0⟩ : ProjectState Nat) ∧
      findIndex (fun proj => proj.id == "0.5")
        (Heap.read [[⟨"0.5", "t1", "d1", 1, ProjectStatus.Active⟩,
          ⟨"0.5", "t2", "d2", 2, ProjectStatus.Active⟩]] 0) = some 0) ∧
    (((Heap.read [[⟨"0.5", "t1", "d1", 1, ProjectStatus.Active⟩,
        ⟨"0.5", "t2", "d2", 2, ProjectStatus.Active⟩]] 0).getD 0
        default).id = "0.5" ∧
     (∀ k, k < 0 →
       ((Heap.read [[⟨"0.5", "t1", "d1", 1, ProjectStatus.Active⟩,
          ⟨"0.5", "t2", "d2", 2, ProjectStatus.Active⟩]] 0).getD k
          default).id ≠ "0.5") ∧
     ∀ j, j ≠ 0 →
       ((ProjectState.moveProject (L := Nat) ⟨[6], 0⟩
          [[⟨"0.5", "t1", "d1", 1, ProjectStatus.Active⟩,
            ⟨"0.5", "t2", "d2", 2, ProjectStatus.Active⟩]] "0.5"
          ProjectStatus.Finished).1.read 0).getD j default
         = (Heap.read [[⟨"0.5", "t1", "d1", 1, ProjectStatus.Active⟩,
            ⟨"0.5", "t2", "d2", 2, ProjectStatus.Active⟩]] 0).getD j
            default) := by
  have hwf : ProjectState.WF
      [[⟨"0.5", "t1", "d1", 1, ProjectStatus.Active⟩,
        ⟨"0.5", "t2", "d2", 2, ProjectStatus.Active⟩]]
      (⟨[6], 0⟩ : ProjectState Nat) := by
    simp [ProjectState.WF]
  have hfind : findIndex (fun proj => proj.id == "0.5")
      (Heap.read [[⟨"0.5", "t1", "d1", 1, ProjectStatus.Active⟩,
        ⟨"0.5", "t2", "d2", 2, ProjectStatus.Active⟩]] 0) = some 0 := by
    decide
  exact ⟨⟨hwf, hfind⟩, moveProject_mutates_first_match_only (L := Nat)
    ⟨[6], 0⟩ _ "0.5" ProjectStatus.Finished 0 hwf hfind⟩

/-- C7: store operations preserve identifiers and restrict status changes:
`addProject` leaves every previously stored project (id, status and all
fields) untouched, `moveProject` — the only operation that writes a status —
preserves every project's identifier, and `addListener` changes neither the
heap nor the store's array reference.  Identifiers are set at creation and
no operation rewrites them. -/
theorem store_ops_preserve_id_and_status {L : Type} (s : ProjectState L)
    (h : Heap) (freshId title description : String) (numOfPeople : Int)
    (projectId : String) (newStatus : ProjectStatus) (l : L) (hwf : s.WF h) :
    (∀ j, j < (h.read s.projectsRef).length →
      ((s.addProject h freshId title description numOfPeople).1.read
          s.projectsRef).getD j default
        = (h.read s.projectsRef).getD j default) ∧
    ((s.moveProject h projectId newStatus).1.read s.projectsRef).map
        Project.id = (h.read s.projectsRef).map Project.id ∧
    (s.addListener h l).1 = h ∧
    (s.addListener h l).2.1.projectsRef = s.projectsRef := by
  refine ⟨?_, ?_, rfl, rfl⟩
  · intro j hj
    rw [addProject_read s h freshId title description numOfPeople hwf]
    exact List.getD_append _ _ _ _ hj
  · cases hfi : findIndex (fun proj => proj.id == projectId)
        (h.read s.projectsRef) with
    | none =>
      rw [moveProject_eq_not_found s h projectId newStatus hfi,
        updateListeners_read s h hwf]
    | some i =>
      by_cases hst : ((h.read s.projectsRef).getD i default).status = newStatus
      · rw [moveProject_eq_found_same s h projectId newStatus i hfi hst,
          updateListeners_read s h hwf]
      · rw [moveProject_eq_found_ne s h projectId newStatus i hfi hst]
        have hwf' : s.WF (h.write s.projectsRef ((h.read s.projectsRef).set i
            { (h.read s.projectsRef).getD i default with
              status := newStatus })) := by
          simpa [ProjectState.WF, Heap.write] using hwf
        rw [updateListeners_read s _ hwf',
          Heap.read_write_self h s.projectsRef _ hwf]
        exact map_id_set _ i _ rfl

/-- Witness for C7 on a one-project store. -/
theorem store_ops_preserve_id_and_status_witness :
    ProjectState.WF
      [[⟨"0.2", "t", "d", 3, ProjectStatus.Active⟩]]
      (⟨[1], 0⟩ : ProjectState Nat) ∧
    ((∀ j, j < (Heap.read [[⟨"0.2", "t", "d", 3, ProjectStatus.Active⟩]]
        0).length →
      ((ProjectState.addProject (L := Nat) ⟨[1], 0⟩
          [[⟨"0.2", "t", "d", 3, ProjectStatus.Active⟩]] "0.8" "nt" "nd"
          4).1.read 0).getD j default
        = (Heap.read [[⟨"0.2", "t", "d", 3, ProjectStatus.Active⟩]] 0).getD
            j default) ∧
     ((ProjectState.moveProject (L := Nat) ⟨[1], 0⟩
        [[⟨"0.2", "t", "d", 3, ProjectStatus.Active⟩]] "0.2"
        ProjectStatus.Finished).1.read 0).map Project.id
       = (Heap.read [[⟨"0.2", "t", "d", 3, ProjectStatus.Active⟩]] 0).map
           Project.id ∧
     (ProjectState.addListener (L := Nat) ⟨[1], 0⟩
        [[⟨"0.2", "t", "d", 3, ProjectStatus.Active⟩]] 9).1
       = [[⟨"0.2", "t", "d", 3, ProjectStatus.Active⟩]] ∧
     (ProjectState.addListener (L := Nat) ⟨[1], 0⟩
        [[⟨"0.2", "t", "d", 3, ProjectStatus.Active⟩]] 9).2.1.projectsRef
       = 0) := by
  have hwf : ProjectState.WF
      [[⟨"0.2", "t", "d", 3, ProjectStatus.Active⟩]]
      (⟨[1], 0⟩ : ProjectState Nat) := by
    simp [ProjectState.WF]
  exact ⟨hwf, store_ops_preserve_id_and_status (L := Nat) ⟨[1], 0⟩ _ "0.8"
    "nt" "nd" 4 "0.2" ProjectStatus.Finished 9 hwf⟩


/-- What survives `dropWhile p` all satisfying `p` forces all of the list
to satisfy `p`. -/
theorem all_of_dropWhile_all (p : Char → Bool) (l : List Char)
    (h : ∀ x ∈ l.dropWhile p, p x = true) : ∀ x ∈ l, p x = true := by
  induction l with
  | nil => simp
  | cons a t ih =>
    by_cases hpa : p a = true
    · rw [List.dropWhile_cons_of_pos hpa] at h
      intro x hx
      rcases List.mem_cons.mp hx with rfl | hx
      · exact hpa
      · exact ih h x hx
    · rw [List.dropWhile_cons_of_neg hpa] at h
      exact absurd (h a (List.mem_cons_self a t)) hpa

/-- Function `jsTrim` produces the empty string exactly on blank input. -/
theorem jsTrim_length_eq_zero_iff (s : String) :
    (jsTrim s).length = 0 ↔ blankString s := by
  have hmain : (jsTrim s).length = 0 ↔ ∀ c ∈ s.data, c.isWhitespace = true := by
    simp only [jsTrim, String.length, List.length_eq_zero,
      List.reverse_eq_nil_iff, List.dropWhile_eq_nil_iff, List.mem_reverse]
    constructor
    · exact all_of_dropWhile_all Char.isWhitespace s.data
    · intro h x hx
      exact h x ((List.dropWhile_sublist _).subset hx)
  rw [hmain, blankString]
  constructor
  · exact Or.inr
  · rintro (h | h)
    · subst h
      simp
    · exact h

/-- C2: `validate` returns `true` exactly when every applicable constraint
holds, in the sense spelled out by `validateSpec`: `required` fails exactly
on a blank string form, `minLength`/`maxLength` constrain only string
values, `min`/`max` constrain only number values, and absent constraints
are vacuously satisfied. -/
theorem validate_iff_spec (v : Validatable) :
    validate v = true ↔ validateSpec v := by
  obtain ⟨val, req, minL, maxL, mi, ma⟩ := v
  cases val <;> cases req <;> cases minL <;> cases maxL <;> cases mi <;>
    cases ma <;>
    simp [validate, validateSpec, JSValue.asString,
      jsTrim_length_eq_zero_iff] <;>
    tauto

/-- If not all three flags are up, the disjunction of their negations is. -/
theorem not_all_three (a b c : Bool)
    (h : ¬ (a = true ∧ b = true ∧ c = true)) : (!a || !b || !c) = true := by
  cases a <;> cases b <;> cases c <;> simp_all

/-- C3: the form gate.  When any of the three validation requests (title
required; description required and at least 5 characters; people count
required and in `[1, 5]`) fails, the submission leaves the heap — hence the
store's collection and its count — untouched, invokes no listener (the add
operation never runs), surfaces exactly one alert, and the three input
fields keep their values.  When all three pass, the heap changes exactly as
`addProject` with the entered title, description and numeric people count, a
full notification round runs, the inputs are cleared and no alert is
raised. -/
theorem submitHandler_gate {L : Type} (s : ProjectState L) (h : Heap)
    (fields : FormFields) (peopleNum : Int) (freshId : String)
    (hwf : s.WF h) :
    (¬ (validate { value := .str fields.titleValue, required := true } = true ∧
        validate { value := .str fields.descriptionValue, required := true,
                   minLength := some 5 } = true ∧
        validate { value := .num peopleNum, required := true, min := some 1,
                   max := some 5 } = true) →
      (submitHandler s h fields peopleNum freshId).1 = h ∧
      (submitHandler s h fields peopleNum freshId).2.1 = fields ∧
      (submitHandler s h fields peopleNum freshId).2.2.1 = [] ∧
      (submitHandler s h fields peopleNum freshId).2.2.2
        = ["Invalid input, please try again!"]) ∧
    ((validate { value := .str fields.titleValue, required := true } = true ∧
      validate { value := .str fields.descriptionValue, required := true,
                 minLength := some 5 } = true ∧
      validate { value := .num peopleNum, required := true, min := some 1,
                 max := some 5 } = true) →
      (submitHandler s h fields peopleNum freshId).1.read s.projectsRef
        = h.read s.projectsRef ++
          [{ id := freshId, title := fields.titleValue,
             description := fields.descriptionValue, people := peopleNum,
             status := ProjectStatus.Active }] ∧
      (submitHandler s h fields peopleNum freshId).2.1
        = { titleValue := "", descriptionValue := "", peopleValue := "" } ∧
      (submitHandler s h fields peopleNum freshId).2.2.1.map Prod.fst
        = s.listeners ∧
      (submitHandler s h fields peopleNum freshId).2.2.2 = []) := by
  constructor
  · intro hbad
    have hb : (!validate { value := .str fields.titleValue, required := true }
        || !validate { value := .str fields.descriptionValue, required := true,
                       minLength := some 5 }
        || !validate { value := .num peopleNum, required := true,
                       min := some 1, max := some 5 }) = true :=
      not_all_three _ _ _ hbad
    simp [submitHandler, gatherUserInput, hb]
  · rintro ⟨h1, h2, h3⟩
    have hb : (!validate { value := .str fields.titleValue, required := true }
        || !validate { value := .str fields.descriptionValue, required := true,
                       minLength := some 5 }
        || !validate { value := .num peopleNum, required := true,
                       min := some 1, max := some 5 }) = false := by
      simp [h1, h2, h3]
    simp only [submitHandler, gatherUserInput, hb, Bool.false_eq_true,
      if_false]
    refine ⟨?_, ?_, ?_, ?_⟩
    · exact addProject_read s h freshId fields.titleValue
        fields.descriptionValue peopleNum hwf
    · trivial
    · exact addProject_calls_fst s h freshId fields.titleValue
        fields.descriptionValue peopleNum
    · trivial

/-- Witness for C3, both ways: the triple `("", "abc", 0)` fails validation
and is rejected without touching the store or the fields; the triple
`("Build API", "Design and implement", 3)` passes and is appended with the
inputs cleared. -/
theorem submitHandler_gate_witness :
    ProjectState.WF [[]] (⟨[5], 0⟩ : ProjectState Nat) ∧
    (¬ (validate { value := .str "", required := true } = true ∧
        validate { value := .str "abc", required := true,
                   minLength := some 5 } = true ∧
        validate { value := .num 0, required := true, min := some 1,
                   max := some 5 } = true)) ∧
    ((submitHandler (L := Nat) ⟨[5], 0⟩ [[]] ⟨"", "abc", "0"⟩ 0 "0.42").1
        = [[]] ∧
      (submitHandler (L := Nat) ⟨[5], 0⟩ [[]] ⟨"", "abc", "0"⟩ 0 "0.42").2.1
        = ⟨"", "abc", "0"⟩ ∧
      (submitHandler (L := Nat) ⟨[5], 0⟩ [[]] ⟨"", "abc", "0"⟩ 0
        "0.42").2.2.1 = [] ∧
      (submitHandler (L := Nat) ⟨[5], 0⟩ [[]] ⟨"", "abc", "0"⟩ 0
        "0.42").2.2.2 = ["Invalid input, please try again!"]) ∧
    (validate { value := .str "Build API", required := true } = true ∧
      validate { value := .str "Design and implement", required := true,
                 minLength := some 5 } = true ∧
      validate { value := .num 3, required := true, min := some 1,
                 max := some 5 } = true) ∧
    ((submitHandler (L := Nat) ⟨[5], 0⟩ [[]]
        ⟨"Build API", "Design and implement", "3"⟩ 3 "0.42").1.read 0
      = [{ id := "0.42", title := "Build API",
           description := "Design and implement", people := 3,
           status := ProjectStatus.Active }] ∧
      (submitHandler (L := Nat) ⟨[5], 0⟩ [[]]
        ⟨"Build API", "Design and implement", "3"⟩ 3 "0.42").2.1
        = { titleValue := "", descriptionValue := "", peopleValue := "" } ∧
      (submitHandler (L := Nat) ⟨[5], 0⟩ [[]]
        ⟨"Build API", "Design and implement", "3"⟩ 3 "0.42").2.2.1.map
          Prod.fst = [5] ∧
      (submitHandler (L := Nat) ⟨[5], 0⟩ [[]]
        ⟨"Build API", "Design and implement", "3"⟩ 3 "0.42").2.2.2 = []) := by
  have hwf : ProjectState.WF [[]] (⟨[5], 0⟩ : ProjectState Nat) := by
    simp [ProjectState.WF]
  have hbad : ¬ (validate { value := .str "", required := true } = true ∧
      validate { value := .str "abc", required := true,
                 minLength := some 5 } = true ∧
      validate { value := .num 0, required := true, min := some 1,
                 max := some 5 } = true) := by decide
  have hgood : validate { value := .str "Build API", required := true } = true ∧
      validate { value := .str "Design and implement", required := true, minLength := some 5 } = true ∧
      validate { value := .num 3, required := true, min := some 1, max := some 5 } = true := by
    decide
  refine ⟨hwf, hbad, ?_, hgood, ?_⟩
  · exact (submitHandler_gate (L := Nat) ⟨[5], 0⟩ [[]] ⟨"", "abc", "0"⟩ 0
      "0.42" hwf).1 hbad
  · exact (submitHandler_gate (L := Nat) ⟨[5], 0⟩ [[]]
      ⟨"Build API", "Design and implement", "3"⟩ 3 "0.42" hwf).2 hgood
